import Mathlib

/-!
Shallow embedding of the QuizMe adaptive review system (Leitner boxes).

Sources embedded here:
  * quizme/ars/box.py           — `Box`
  * quizme/ars/boxmanager.py    — `BoxManager`
  * quizme/ars/arcontroller.py  — `ARController._initialize_questions`, `ARController.start`
  * quizme/ars/qtype/question.py, truefalse.py, shortanswer.py — question types

Modelling conventions:
  * `datetime` values are integers (seconds); `datetime.min` is the constant
    `dtMin`, and every value of `datetime.now()` is `≥ dtMin`.
  * `timedelta` values are integers (seconds).
  * A `Question` object's identity (its `uuid4`) is a `Nat`; the mutable
    `_last_asked` field of the shared question objects is an external map
    `la : Nat → Int` from identity to timestamp.
  * Python's `str.strip`, `str.lower` and the regex `\w` are modelled over
    their ASCII behaviour (`pyStrip`, `pyLower`, `isWordChar`).
  * Python's stable `sorted` is modelled by an insertion sort that is stable,
    hence extensionally equal to it.
-/

/-- `datetime.min`, the sentinel meaning "never asked". -/
def dtMin : Int := 0

/-- `timedelta.max` in whole seconds (999999999 days, 23:59:59). -/
def tdMax : Int := 86399999999999

/-- Python `str.strip()` (ASCII whitespace). -/
def pyStrip (s : String) : String :=
  String.mk (((s.toList.dropWhile Char.isWhitespace).reverse.dropWhile
    Char.isWhitespace).reverse)

/-- Python `str.lower()` (ASCII case mapping). -/
def pyLower (s : String) : String :=
  String.mk (s.toList.map Char.toLower)

/-- ASCII fragment of the regex class `\w`: letters, digits, underscore. -/
def isWordChar (c : Char) : Bool :=
  c.isAlphanum || c == '_'

/-! ## Box (quizme/ars/box.py) -/

/-- A box: name, priority interval, and the list of member question ids in
insertion order (`self._questions`). -/
structure Box where
  name : String
  priority_interval : Int
  questions : List Nat
  deriving Repr, DecidableEq

/-- Default box used to totalise list indexing. -/
def dBox : Box := ⟨"", 0, []⟩

/-- `Box.add_question`: append unless already a member. -/
def Box.add_question (b : Box) (q : Nat) : Box :=
  if q ∈ b.questions then b
  else { b with questions := b.questions ++ [q] }

/-- `Box.remove_question`: `list.remove` of the first occurrence, no-op when
absent. -/
def Box.remove_question (b : Box) (q : Nat) : Box :=
  { b with questions := b.questions.erase q }

/-- Insertion step of the stable sort by `last_asked`. -/
def insertByLA (la : Nat → Int) (q : Nat) : List Nat → List Nat
  | [] => [q]
  | r :: rs => if la q ≤ la r then q :: r :: rs else r :: insertByLA la q rs

/-- Stable sort of question ids by ascending `last_asked`, modelling
`sorted(self._questions, key=lambda x: x.last_asked)`. -/
def sortByLA (la : Nat → Int) : List Nat → List Nat
  | [] => []
  | q :: qs => insertByLA la q (sortByLA la qs)

/-- `Box.get_next_priority_question`: sort members by `last_asked` and return
the first whose elapsed time `now - last_asked` reaches the box's priority
interval. -/
def Box.get_next_priority_question (b : Box) (la : Nat → Int) (now : Int) :
    Option Nat :=
  (sortByLA la b.questions).find? (fun q => decide (b.priority_interval ≤ now - la q))

/-! ## BoxManager (quizme/ars/boxmanager.py) -/

/-- The `_question_location` dict: question id to box index.  A Python dict
write is modelled by prepending, a read by the first matching entry. -/
def getLoc (loc : List (Nat × Nat)) (q : Nat) : Option Nat :=
  (loc.find? (fun p => p.1 == q)).map (·.2)

/-- Dict update `self._question_location[str(q.id)] = i`. -/
def setLoc (loc : List (Nat × Nat)) (q : Nat) (i : Nat) : List (Nat × Nat) :=
  (q, i) :: loc

/-- The manager: the fixed five-box ladder and the location dict. -/
structure BoxManager where
  boxes : List Box
  questionLocation : List (Nat × Nat)
  deriving Repr

/-- `BoxManager.__init__`: the five predefined boxes, empty location dict. -/
def BoxManager.new : BoxManager :=
  { boxes :=
      [ ⟨"Missed Questions", 60, []⟩,
        ⟨"Unasked Questions", 0, []⟩,
        ⟨"Correctly Answered Once", 180, []⟩,
        ⟨"Correctly Answered Twice", 360, []⟩,
        ⟨"Known Questions", tdMax, []⟩ ],
    questionLocation := [] }

/-- `BoxManager.add_new_question`: insert into box 1 and record location 1. -/
def BoxManager.add_new_question (m : BoxManager) (q : Nat) : BoxManager :=
  { boxes := m.boxes.set 1 ((m.boxes.getD 1 dBox).add_question q),
    questionLocation := setLoc m.questionLocation q 1 }

/-- `BoxManager.move_question`: demote to box 0 on a wrong answer, promote
(box 0 jumps to box 2, otherwise one rung capped at the last box) on a right
one; `none` models the `KeyError` on an unregistered id. -/
def BoxManager.move_question (m : BoxManager) (q : Nat) (answeredCorrectly : Bool) :
    Option BoxManager :=
  match getLoc m.questionLocation q with
  | none => none
  | some cur =>
    let newIdx := if answeredCorrectly then
        (if cur = 0 then 2 else min (cur + 1) (m.boxes.length - 1))
      else 0
    let boxes1 := m.boxes.set cur ((m.boxes.getD cur dBox).remove_question q)
    let boxes2 := boxes1.set newIdx ((boxes1.getD newIdx dBox).add_question q)
    some { boxes := boxes2, questionLocation := setLoc m.questionLocation q newIdx }

/-- The scan of `get_next_question` over a list of boxes: first non-`none`
result of `get_next_priority_question`. -/
def scanBoxes (la : Nat → Int) (now : Int) : List Box → Option Nat
  | [] => none
  | b :: bs =>
    match b.get_next_priority_question la now with
    | some q => some q
    | none => scanBoxes la now bs

/-- `BoxManager.get_next_question`: scan `self._boxes[:-1]`, skipping the
last ("Known Questions") box. -/
def BoxManager.get_next_question (m : BoxManager) (la : Nat → Int) (now : Int) :
    Option Nat :=
  scanBoxes la now m.boxes.dropLast

/-! ## Question types (quizme/ars/qtype/) -/

/-- `TrueFalse.check_answer`: strip and lower-case the input, parse it as a
boolean, compare with the canonical answer; an unparseable input raises
`ValueError`, modelled by `Except.error`. -/
def TrueFalse.check_answer (answer : Bool) (input : String) : Except String Bool :=
  let normalized := pyLower (pyStrip input)
  if normalized = "true" || normalized = "t" then
    Except.ok (true == answer)
  else if normalized = "false" || normalized = "f" then
    Except.ok (false == answer)
  else
    Except.error "Answer must be 'True' or 'False'."

/-- `ShortAnswer._normalize`: strip, lower-case unless case-sensitive, then
delete every character matching `[^\w\s]`. -/
def ShortAnswer.normalize (caseSensitive : Bool) (text : String) : String :=
  let t := pyStrip text
  let t := if caseSensitive then t else pyLower t
  String.mk (t.toList.filter (fun c => isWordChar c || c.isWhitespace))

/-- `ShortAnswer.check_answer`: exact equality of the two normalizations. -/
def ShortAnswer.check_answer (caseSensitive : Bool) (answer provided : String) :
    Bool :=
  ShortAnswer.normalize caseSensitive provided == ShortAnswer.normalize caseSensitive answer

/-- The concrete question classes (`Question` is abstract). -/
inductive QVariant
  | shortanswer
  | truefalse
  deriving Repr, DecidableEq

/-- A question object as far as equality and hashing see it: its generated
`uuid4` identity (a `Nat`), its class, and its texts (which equality must
ignore). -/
structure QuestionObj where
  id : Nat
  variant : QVariant
  prompt : String
  answerText : String
  deriving Repr, DecidableEq

/-- `ShortAnswer.__eq__` / `TrueFalse.__eq__`: Python dispatches `p == q` to
the class of `p`, which requires `q` to be of the same class and compares
ids. -/
def questionEq (p q : QuestionObj) : Bool :=
  match p.variant with
  | QVariant.shortanswer => q.variant == QVariant.shortanswer && p.id == q.id
  | QVariant.truefalse => q.variant == QVariant.truefalse && p.id == q.id

/-- `__hash__ = hash(self._id)` in both classes: a function of the id only. -/
def questionHash (p : QuestionObj) : Nat :=
  hash p.id |>.toNat

/-! ## Question loading (quizme/ars/arcontroller.py, _initialize_questions) -/

/-- A JSON scalar as it can appear in the `correct_answer` field. -/
inductive JVal
  | str (s : String)
  | bool (b : Bool)
  | num (n : Int)
  deriving Repr, DecidableEq

/-- One record of the question-data list (a JSON object); absent keys are
`none`. -/
structure QRecord where
  qtype : Option String
  question : Option String
  correct_answer : Option JVal
  case_sensitive : Option Bool
  explanation : Option String
  deriving Repr, DecidableEq

/-- A successfully constructed question, as handed to `add_new_question`. -/
inductive LoadedQ
  | shortanswer (question : String) (answer : JVal) (caseSensitive : Bool)
  | truefalse (question : String) (answer : Bool) (explanation : String)
  deriving Repr, DecidableEq

/-- Fate of a single record in the `_initialize_questions` loop. -/
inductive RecResult
  | added (q : LoadedQ)
  | skipped
  | aborted
  deriving Repr, DecidableEq

/-- One iteration of `_initialize_questions`: unknown type → skip with a
diagnostic; missing `question`/`correct_answer` key → `KeyError`, caught,
skip; a `truefalse` record whose answer is not a boolean → `ValueError`
from `TrueFalse.__init__`, not caught → abort. -/
def processRecord (r : QRecord) : RecResult :=
  match r.qtype with
  | some "shortanswer" =>
    match r.question, r.correct_answer with
    | some qt, some ans =>
      RecResult.added (LoadedQ.shortanswer qt ans (r.case_sensitive.getD false))
    | _, _ => RecResult.skipped
  | some "truefalse" =>
    match r.question, r.correct_answer with
    | some qt, some (JVal.bool b) =>
      RecResult.added (LoadedQ.truefalse qt b (r.explanation.getD ""))
    | some _, some _ => RecResult.aborted
    | _, _ => RecResult.skipped
  | _ => RecResult.skipped

/-- `_initialize_questions` over the whole batch: the list of questions
passed to `add_new_question`, in order, or `Except.error` when an uncaught
exception aborts the load. -/
def initializeQuestions : List QRecord → Except Unit (List LoadedQ)
  | [] => Except.ok []
  | r :: rest =>
    match processRecord r with
    | RecResult.added q => (initializeQuestions rest).map (fun qs => q :: qs)
    | RecResult.skipped => initializeQuestions rest
    | RecResult.aborted => Except.error ()

/-- A record the load skips by design: unrecognised (or absent) type
discriminator, or a missing required field. -/
def malformedSkippable (r : QRecord) : Bool :=
  !(r.qtype == some "shortanswer" || r.qtype == some "truefalse") ||
    !(r.question.isSome && r.correct_answer.isSome)

/-- A well-formed record: recognised type, both required fields, and a
boolean answer when the type is `truefalse`. -/
def wellFormedRec (r : QRecord) : Bool :=
  (r.qtype == some "shortanswer" || r.qtype == some "truefalse") &&
    r.question.isSome && r.correct_answer.isSome &&
    (r.qtype != some "truefalse" ||
      (match r.correct_answer with
       | some (JVal.bool _) => true
       | _ => false))

/-- The question a record contributes, if any. -/
def addedQ (r : QRecord) : Option LoadedQ :=
  match processRecord r with
  | RecResult.added q => some q
  | _ => none

/-! ## Session loop (quizme/ars/arcontroller.py, start) -/

/-- Outcome of one iteration of the `while True` loop in
`ARController.start`. -/
inductive StepOutcome
  | complete
  | quit (m : BoxManager) (la : Nat → Int)
  | answered (m : BoxManager) (la : Nat → Int) (correct : Bool)
  | errored

/-- One iteration of `ARController.start`: fetch the next question (none →
session complete); `question.ask()` stamps `last_asked := now`; a response
that lower-cases to `"q"` breaks the loop before the answer is evaluated;
otherwise the answer is checked (`ValueError` would propagate: `errored`)
and the question is moved. -/
def arStep (m : BoxManager) (la : Nat → Int) (now : Int) (response : String)
    (check : Nat → String → Except String Bool) : StepOutcome :=
  match m.get_next_question la now with
  | none => StepOutcome.complete
  | some q =>
    let la' := fun x => if x = q then now else la x
    if pyLower response = "q" then StepOutcome.quit m la'
    else
      match check q response with
      | Except.error _ => StepOutcome.errored
      | Except.ok correct =>
        match m.move_question q correct with
        | none => StepOutcome.errored
        | some m' => StepOutcome.answered m' la' correct

/-! ## List helper lemmas -/

theorem getD_set_self {α : Type _} (a d : α) :
    ∀ (l : List α) (i : Nat), i < l.length → (l.set i a).getD i d = a
  | x :: xs, 0, _ => rfl
  | x :: xs, i+1, h => getD_set_self a d xs i (Nat.lt_of_succ_lt_succ h)

theorem getD_set_ne {α : Type _} (a d : α) :
    ∀ (l : List α) (i j : Nat), i ≠ j → (l.set i a).getD j d = l.getD j d
  | [], _, _, _ => by simp
  | x :: xs, 0, 0, h => absurd rfl h
  | x :: xs, 0, j+1, _ => rfl
  | x :: xs, i+1, 0, _ => rfl
  | x :: xs, i+1, j+1, h =>
    getD_set_ne a d xs i j (fun e => h (by rw [e]))

theorem perm_insertByLA (la : Nat → Int) (q : Nat) :
    ∀ l : List Nat, List.Perm (insertByLA la q l) (q :: l)
  | [] => List.Perm.refl _
  | r :: rs => by
    unfold insertByLA
    split
    · exact List.Perm.refl _
    · exact (List.Perm.cons r (perm_insertByLA la q rs)).trans (List.Perm.swap q r rs)

theorem perm_sortByLA (la : Nat → Int) :
    ∀ l : List Nat, List.Perm (sortByLA la l) l
  | [] => List.Perm.refl _
  | q :: qs => (perm_insertByLA la q _).trans (List.Perm.cons q (perm_sortByLA la qs))

theorem pairwise_insertByLA (la : Nat → Int) (q : Nat) :
    ∀ l : List Nat, List.Pairwise (fun a b => la a ≤ la b) l →
      List.Pairwise (fun a b => la a ≤ la b) (insertByLA la q l) := by
  intro l
  induction l with
  | nil => intro _; simp [insertByLA]
  | cons r rs ih =>
    intro h
    rw [List.pairwise_cons] at h
    unfold insertByLA
    split
    · rename_i hle
      refine List.Pairwise.cons ?_ (List.Pairwise.cons h.1 h.2)
      intro x hx
      rcases List.mem_cons.1 hx with rfl | hx
      · exact hle
      · exact le_trans hle (h.1 x hx)
    · rename_i hnle
      refine List.Pairwise.cons ?_ (ih h.2)
      intro x hx
      rcases List.mem_cons.1 ((perm_insertByLA la q rs).mem_iff.1 hx) with rfl | h'
      · exact le_of_not_le hnle
      · exact h.1 x h'

theorem pairwise_sortByLA (la : Nat → Int) :
    ∀ l : List Nat, List.Pairwise (fun a b => la a ≤ la b) (sortByLA la l)
  | [] => List.Pairwise.nil
  | q :: qs => pairwise_insertByLA la q _ (pairwise_sortByLA la qs)

theorem find?_min_of_pairwise (la : Nat → Int) (p : Nat → Bool)
    (mono : ∀ x y, la x ≤ la y → p y = true → p x = true) :
    ∀ {q : Nat} (l : List Nat), List.Pairwise (fun a b => la a ≤ la b) l →
      l.find? p = some q → ∀ r ∈ l, la q ≤ la r := by
  intro q l
  induction l with
  | nil => intro _ hf; simp at hf
  | cons x xs ih =>
    intro h hf r hr
    rw [List.pairwise_cons] at h
    rcases hx : p x with _ | _
    · rw [List.find?_cons_of_neg _ (by simp [hx])] at hf
      have hq : q ∈ xs := List.mem_of_find?_eq_some hf
      have : p x = true :=
        mono x q (h.1 q hq) (List.find?_some hf)
      rw [hx] at this
      exact absurd this (by simp)
    · rw [List.find?_cons_of_pos _ hx] at hf
      cases hf
      rcases List.mem_cons.1 hr with rfl | hr
      · exact le_refl _
      · exact h.1 r hr

/-! ## Box lemmas -/

theorem mem_add_question (b : Box) (q x : Nat) :
    x ∈ (b.add_question q).questions ↔ x ∈ b.questions ∨ x = q := by
  unfold Box.add_question
  split
  · rename_i hq
    constructor
    · exact Or.inl
    · rintro (h | rfl)
      · exact h
      · exact hq
  · simp

theorem self_mem_add_question (b : Box) (q : Nat) :
    q ∈ (b.add_question q).questions :=
  (mem_add_question b q q).2 (Or.inr rfl)

theorem nodup_add_question (b : Box) (q : Nat) (h : b.questions.Nodup) :
    (b.add_question q).questions.Nodup := by
  unfold Box.add_question
  split
  · exact h
  · rename_i hq
    simp [List.nodup_append, h, hq]

theorem interval_add_question (b : Box) (q : Nat) :
    (b.add_question q).priority_interval = b.priority_interval := by
  unfold Box.add_question
  split <;> rfl

theorem nodup_remove_question (b : Box) (q : Nat) (h : b.questions.Nodup) :
    (b.remove_question q).questions.Nodup :=
  h.erase q

theorem mem_remove_question (b : Box) (q x : Nat) (h : b.questions.Nodup) :
    x ∈ (b.remove_question q).questions ↔ x ≠ q ∧ x ∈ b.questions :=
  h.mem_erase_iff

/-- Soundness of `get_next_priority_question`: the returned question is a
member, its elapsed time reaches the interval, and its `last_asked` is
minimal among all members. -/
theorem gnpq_some (b : Box) (la : Nat → Int) (now : Int) {q : Nat}
    (h : b.get_next_priority_question la now = some q) :
    q ∈ b.questions ∧ b.priority_interval ≤ now - la q ∧
      ∀ r ∈ b.questions, la q ≤ la r := by
  unfold Box.get_next_priority_question at h
  have hp : b.priority_interval ≤ now - la q := by
    have := List.find?_some h
    simpa using this
  refine ⟨(perm_sortByLA la b.questions).mem_iff.1 (List.mem_of_find?_eq_some h),
    hp, ?_⟩
  intro r hr
  exact find?_min_of_pairwise la _
    (fun x y hxy hy => by
      rw [decide_eq_true_eq] at *
      exact le_trans hy (by omega))
    _ (pairwise_sortByLA la b.questions) h r
    ((perm_sortByLA la b.questions).mem_iff.2 hr)

/-- `get_next_priority_question` returns `none` exactly when no member's
elapsed time reaches the interval. -/
theorem gnpq_none_iff (b : Box) (la : Nat → Int) (now : Int) :
    b.get_next_priority_question la now = none ↔
      ∀ r ∈ b.questions, ¬ b.priority_interval ≤ now - la r := by
  unfold Box.get_next_priority_question
  rw [List.find?_eq_none]
  constructor
  · intro h r hr
    have := h r ((perm_sortByLA la b.questions).mem_iff.2 hr)
    simpa using this
  · intro h r hr
    have := h r ((perm_sortByLA la b.questions).mem_iff.1 hr)
    simpa using this

/-! ## The BoxManager invariant -/

/-- Member list of box `i` of a manager. -/
def boxQ (m : BoxManager) (i : Nat) : List Nat :=
  (m.boxes.getD i dBox).questions

/-- Consistency invariant of a manager: five boxes; every registered
question id lies in exactly the box its location entry names; unregistered
ids lie in no box; no box holds a duplicate. -/
def ManagerInv (m : BoxManager) : Prop :=
  m.boxes.length = 5 ∧
  (∀ q i, getLoc m.questionLocation q = some i →
    i < 5 ∧ ∀ j, j < 5 → (q ∈ boxQ m j ↔ j = i)) ∧
  (∀ q, getLoc m.questionLocation q = none → ∀ j, q ∉ boxQ m j) ∧
  (∀ j, (boxQ m j).Nodup)

/-- The state `move_question` builds once the current index is known:
remove from box `cur`, add to box `newIdx`, update the location entry. -/
def relocate (m : BoxManager) (q : Nat) (cur newIdx : Nat) : BoxManager :=
  let boxes1 := m.boxes.set cur ((m.boxes.getD cur dBox).remove_question q)
  { boxes := boxes1.set newIdx ((boxes1.getD newIdx dBox).add_question q),
    questionLocation := setLoc m.questionLocation q newIdx }

/-- The public mutating calls of `BoxManager`. -/
inductive AROp
  | addNew (q : Nat)
  | move (q : Nat) (correct : Bool)
  deriving Repr, DecidableEq

/-- Run a sequence of public calls; `none` when a `move_question` hits an
unregistered id (`KeyError`). -/
def runOps (m : BoxManager) : List AROp → Option BoxManager
  | [] => some m
  | AROp.addNew q :: rest => runOps (m.add_new_question q) rest
  | AROp.move q c :: rest =>
    match m.move_question q c with
    | none => none
    | some m' => runOps m' rest

/-- Traces in which every question is registered by `addNew` exactly once
before any `move` on it; `s` is the set of ids registered so far. -/
inductive GoodTrace : List Nat → List AROp → Prop
  | nil : ∀ s, GoodTrace s []
  | add : ∀ s q ops, q ∉ s → GoodTrace (q :: s) ops →
      GoodTrace s (AROp.addNew q :: ops)
  | move : ∀ s q c ops, q ∈ s → GoodTrace s ops →
      GoodTrace s (AROp.move q c :: ops)

/-! ## Location dict lemmas -/

theorem getLoc_setLoc_self (loc : List (Nat × Nat)) (q i : Nat) :
    getLoc (setLoc loc q i) q = some i := by
  simp [getLoc, setLoc, List.find?]

theorem getLoc_setLoc_ne (loc : List (Nat × Nat)) (q q' i : Nat) (h : q' ≠ q) :
    getLoc (setLoc loc q i) q' = getLoc loc q' := by
  unfold getLoc setLoc
  rw [List.find?_cons_of_neg _ (by simp [Ne.symm h])]

theorem getLoc_add_new (m : BoxManager) (q x : Nat) :
    getLoc (m.add_new_question q).questionLocation x =
      if x = q then some 1 else getLoc m.questionLocation x := by
  unfold BoxManager.add_new_question
  by_cases hx : x = q
  · subst hx; rw [if_pos rfl]; exact getLoc_setLoc_self _ _ _
  · rw [if_neg hx]; exact getLoc_setLoc_ne _ _ _ _ hx

theorem getLoc_relocate (m : BoxManager) (q cur newIdx x : Nat) :
    getLoc (relocate m q cur newIdx).questionLocation x =
      if x = q then some newIdx else getLoc m.questionLocation x := by
  unfold relocate
  by_cases hx : x = q
  · subst hx; rw [if_pos rfl]; exact getLoc_setLoc_self _ _ _
  · rw [if_neg hx]; exact getLoc_setLoc_ne _ _ _ _ hx

theorem move_eq_relocate (m : BoxManager) (q : Nat) (c : Bool) {cur : Nat}
    (h : getLoc m.questionLocation q = some cur) :
    m.move_question q c = some (relocate m q cur
      (if c then (if cur = 0 then 2 else min (cur + 1) (m.boxes.length - 1))
       else 0)) := by
  simp only [BoxManager.move_question, relocate, h]

/-! ## Invariant preservation -/

theorem boxQ_new : ∀ j, boxQ BoxManager.new j = []
  | 0 => rfl
  | 1 => rfl
  | 2 => rfl
  | 3 => rfl
  | 4 => rfl
  | _+5 => rfl

theorem managerInv_new : ManagerInv BoxManager.new := by
  refine ⟨rfl, ?_, ?_, ?_⟩
  · intro q i h
    simp [getLoc, BoxManager.new] at h
  · intro q _ j
    rw [boxQ_new j]
    exact List.not_mem_nil q
  · intro j
    rw [boxQ_new j]
    exact List.nodup_nil

theorem boxQ_add_new (m : BoxManager) (q : Nat) (h5 : m.boxes.length = 5) (j : Nat) :
    boxQ (m.add_new_question q) j =
      if j = 1 then ((m.boxes.getD 1 dBox).add_question q).questions
      else boxQ m j := by
  unfold BoxManager.add_new_question boxQ
  simp only
  by_cases hj : j = 1
  · subst hj
    rw [if_pos rfl, getD_set_self _ _ _ _ (by omega)]
  · rw [if_neg hj, getD_set_ne _ _ _ _ _ (fun e => hj e.symm)]

theorem managerInv_add_new (m : BoxManager) (q : Nat) (hInv : ManagerInv m)
    (hq : getLoc m.questionLocation q = none) :
    ManagerInv (m.add_new_question q) := by
  obtain ⟨h5, hsome, hnone, hnd⟩ := hInv
  have h5' : (m.add_new_question q).boxes.length = 5 := by
    unfold BoxManager.add_new_question
    simp [h5]
  refine ⟨h5', ?_, ?_, ?_⟩
  · intro x i hx
    rw [getLoc_add_new] at hx
    by_cases hxq : x = q
    · subst hxq
      rw [if_pos rfl] at hx
      injection hx with hx1
      subst hx1
      refine ⟨by omega, ?_⟩
      intro j hj
      rw [boxQ_add_new m x h5 j]
      by_cases hj1 : j = 1
      · subst hj1
        simp [self_mem_add_question]
      · rw [if_neg hj1]
        exact iff_of_false (hnone x hq j) hj1
    · rw [if_neg hxq] at hx
      obtain ⟨hi5, hxm⟩ := hsome x i hx
      refine ⟨hi5, ?_⟩
      intro j hj
      rw [boxQ_add_new m q h5 j]
      by_cases hj1 : j = 1
      · subst hj1
        rw [if_pos rfl, mem_add_question]
        constructor
        · rintro (hm | rfl)
          · exact (hxm 1 (by omega)).1 hm
          · exact absurd rfl hxq
        · intro h1
          exact Or.inl ((hxm 1 (by omega)).2 h1)
      · rw [if_neg hj1]
        exact hxm j hj
  · intro x hx j
    rw [getLoc_add_new] at hx
    by_cases hxq : x = q
    · rw [if_pos hxq] at hx
      exact absurd hx (by simp)
    · rw [if_neg hxq] at hx
      rw [boxQ_add_new m q h5 j]
      by_cases hj1 : j = 1
      · subst hj1
        rw [if_pos rfl, mem_add_question]
        rintro (hm | rfl)
        · exact hnone x hx 1 hm
        · exact hxq rfl
      · rw [if_neg hj1]
        exact hnone x hx j
  · intro j
    rw [boxQ_add_new m q h5 j]
    by_cases hj1 : j = 1
    · subst hj1
      rw [if_pos rfl]
      exact nodup_add_question _ _ (hnd 1)
    · rw [if_neg hj1]
      exact hnd j

theorem boxQ_relocate (m : BoxManager) (q cur newIdx : Nat)
    (h5 : m.boxes.length = 5) (hc5 : cur < 5) (hn5 : newIdx < 5) (j : Nat) :
    boxQ (relocate m q cur newIdx) j =
      if j = newIdx then
        ((if newIdx = cur then (m.boxes.getD cur dBox).remove_question q
          else m.boxes.getD newIdx dBox).add_question q).questions
      else if j = cur then ((m.boxes.getD cur dBox).remove_question q).questions
      else boxQ m j := by
  have hb1 : ∀ k, (m.boxes.set cur ((m.boxes.getD cur dBox).remove_question q)).getD k dBox =
      if k = cur then (m.boxes.getD cur dBox).remove_question q
      else m.boxes.getD k dBox := by
    intro k
    by_cases hk : k = cur
    · subst hk
      rw [if_pos rfl]
      exact getD_set_self _ _ _ _ (by omega)
    · rw [if_neg hk]
      exact getD_set_ne _ _ _ _ _ (fun e => hk e.symm)
  unfold relocate boxQ
  simp only
  by_cases hjn : j = newIdx
  · subst hjn
    rw [if_pos rfl, getD_set_self _ _ _ _ (by simpa [h5] using hn5), hb1 j]
  · rw [if_neg hjn, getD_set_ne _ _ _ _ _ (fun e => hjn e.symm), hb1 j]
    by_cases hjc : j = cur
    · rw [if_pos hjc, if_pos hjc]
    · rw [if_neg hjc, if_neg hjc]

theorem managerInv_relocate (m : BoxManager) (q cur newIdx : Nat)
    (hInv : ManagerInv m) (hcur : getLoc m.questionLocation q = some cur)
    (hn5 : newIdx < 5) :
    ManagerInv (relocate m q cur newIdx) := by
  obtain ⟨h5, hsome, hnone, hnd⟩ := hInv
  obtain ⟨hc5, hqm⟩ := hsome q cur hcur
  have h5' : (relocate m q cur newIdx).boxes.length = 5 := by
    unfold relocate
    simp [h5]
  have hbq := boxQ_relocate m q cur newIdx h5 hc5 hn5
  refine ⟨h5', ?_, ?_, ?_⟩
  · intro x i hx
    rw [getLoc_relocate] at hx
    by_cases hxq : x = q
    · subst hxq
      rw [if_pos rfl] at hx
      injection hx with hx1
      subst hx1
      refine ⟨hn5, ?_⟩
      intro j hj
      rw [hbq j]
      by_cases hjn : j = newIdx
      · rw [if_pos hjn]
        simp [self_mem_add_question, hjn]
      · rw [if_neg hjn]
        by_cases hjc : j = cur
        · rw [if_pos hjc]
          refine iff_of_false ?_ hjn
          rw [mem_remove_question _ _ _ (hnd cur)]
          simp
        · rw [if_neg hjc]
          refine iff_of_false ?_ hjn
          intro hm
          exact hjc ((hqm j hj).1 hm)
    · rw [if_neg hxq] at hx
      obtain ⟨hi5, hxm⟩ := hsome x i hx
      refine ⟨hi5, ?_⟩
      have hxj : ∀ j, x ∈ boxQ (relocate m q cur newIdx) j ↔ x ∈ boxQ m j := by
        intro j
        rw [hbq j]
        by_cases hjn : j = newIdx
        · rw [if_pos hjn, mem_add_question]
          by_cases hnc : newIdx = cur
          · rw [if_pos hnc, mem_remove_question _ _ _ (hnd cur)]
            rw [hjn, hnc]
            simp [hxq, boxQ]
          · rw [if_neg hnc]
            rw [hjn]
            simp [hxq, boxQ]
        · rw [if_neg hjn]
          by_cases hjc : j = cur
          · rw [if_pos hjc, mem_remove_question _ _ _ (hnd cur)]
            rw [hjc]
            simp [hxq, boxQ]
          · rw [if_neg hjc]
      intro j hj
      rw [hxj j]
      exact hxm j hj
  · intro x hx j
    rw [getLoc_relocate] at hx
    by_cases hxq : x = q
    · rw [if_pos hxq] at hx
      exact absurd hx (by simp)
    · rw [if_neg hxq] at hx
      rw [hbq j]
      by_cases hjn : j = newIdx
      · rw [if_pos hjn, mem_add_question]
        rintro (hm | rfl)
        · by_cases hnc : newIdx = cur
          · rw [if_pos hnc, mem_remove_question _ _ _ (hnd cur)] at hm
            exact hnone x hx cur hm.2
          · rw [if_neg hnc] at hm
            exact hnone x hx newIdx hm
        · exact hxq rfl
      · rw [if_neg hjn]
        by_cases hjc : j = cur
        · rw [if_pos hjc, mem_remove_question _ _ _ (hnd cur)]
          intro hm
          exact hnone x hx cur hm.2
        · rw [if_neg hjc]
          exact hnone x hx j
  · intro j
    rw [hbq j]
    by_cases hjn : j = newIdx
    · rw [if_pos hjn]
      refine nodup_add_question _ _ ?_
      by_cases hnc : newIdx = cur
      · rw [if_pos hnc]
        exact nodup_remove_question _ _ (hnd cur)
      · rw [if_neg hnc]
        exact hnd newIdx
    · rw [if_neg hjn]
      by_cases hjc : j = cur
      · rw [if_pos hjc]
        exact nodup_remove_question _ _ (hnd cur)
      · rw [if_neg hjc]
        exact hnd j

theorem runOps_preserves_inv :
    ∀ (ops : List AROp) (s : List Nat) (m : BoxManager),
      GoodTrace s ops → ManagerInv m →
      (∀ x, (getLoc m.questionLocation x).isSome = true ↔ x ∈ s) →
      ∃ m', runOps m ops = some m' ∧ ManagerInv m' := by
  intro ops
  induction ops with
  | nil =>
    intro s m _ hInv _
    exact ⟨m, rfl, hInv⟩
  | cons op rest ih =>
    intro s m hg hInv hreg
    cases hg with
    | add _ q _ hq hrest =>
      have hnone : getLoc m.questionLocation q = none := by
        rcases h : getLoc m.questionLocation q with _ | v
        · rfl
        · exact absurd ((hreg q).1 (by rw [h]; rfl)) hq
      have hInv' := managerInv_add_new m q hInv hnone
      have hreg' : ∀ x, (getLoc (m.add_new_question q).questionLocation x).isSome = true
          ↔ x ∈ q :: s := by
        intro x
        rw [getLoc_add_new]
        by_cases hx : x = q
        · subst hx
          simp
        · rw [if_neg hx]
          simp [hreg x, hx]
      exact ih (q :: s) (m.add_new_question q) hrest hInv' hreg'
    | move _ q c _ hq hrest =>
      obtain ⟨cur, hcur⟩ :=
        Option.isSome_iff_exists.1 ((hreg q).2 hq)
      obtain ⟨hc5, _⟩ := hInv.2.1 q cur hcur
      have hn5 : (if c then (if cur = 0 then 2
          else min (cur + 1) (m.boxes.length - 1)) else 0) < 5 := by
        rcases c with _ | _
        · simp
        · by_cases h0 : cur = 0
          · simp [h0]
          · simp only [if_neg h0, if_true]
            rw [hInv.1]
            omega
      have hrun := move_eq_relocate m q c hcur
      have hInv' := managerInv_relocate m q cur _ hInv hcur hn5
      have hreg' : ∀ x, (getLoc (relocate m q cur
          (if c then (if cur = 0 then 2 else min (cur + 1) (m.boxes.length - 1))
           else 0)).questionLocation x).isSome = true ↔ x ∈ s := by
        intro x
        rw [getLoc_relocate]
        by_cases hx : x = q
        · subst hx
          rw [if_pos rfl]
          exact iff_of_true rfl hq
        · rw [if_neg hx]
          exact hreg x
      obtain ⟨m', hm', hInvm'⟩ := ih s _ hrest hInv' hreg'
      refine ⟨m', ?_, hInvm'⟩
      simp only [runOps, hrun]
      exact hm'

/-! ## Scan lemmas -/

theorem list_eq_of_length_five {α : Type _} :
    ∀ l : List α, l.length = 5 → ∃ a b c d e, l = [a, b, c, d, e]
  | [a, b, c, d, e], _ => ⟨a, b, c, d, e, rfl⟩
  | [], h => absurd h (by simp)
  | [a], h => absurd h (by simp)
  | [a, b], h => absurd h (by simp)
  | [a, b, c], h => absurd h (by simp)
  | [a, b, c, d], h => absurd h (by simp)
  | a :: b :: c :: d :: e :: f :: rest, h => absurd h (by simp)

theorem scanBoxes_nil (la : Nat → Int) (now : Int) : scanBoxes la now [] = none := rfl

theorem opt_orElse_none (o : Option Nat) : (o <|> none) = o := by
  rcases o with _ | q <;> rfl

theorem scanBoxes_cons (la : Nat → Int) (now : Int) (b : Box) (bs : List Box) :
    scanBoxes la now (b :: bs) =
      (b.get_next_priority_question la now <|> scanBoxes la now bs) := by
  rcases h : b.get_next_priority_question la now with _ | q <;>
    simp [scanBoxes, h, Option.orElse]

theorem scanBoxes_some (la : Nat → Int) (now : Int) :
    ∀ (l : List Box) (q : Nat), scanBoxes la now l = some q →
      ∃ b, b ∈ l ∧ b.get_next_priority_question la now = some q := by
  intro l
  induction l with
  | nil =>
    intro q h
    simp [scanBoxes] at h
  | cons b bs ih =>
    intro q h
    rcases hb : b.get_next_priority_question la now with _ | q'
    · simp only [scanBoxes, hb] at h
      obtain ⟨b', hb', h'⟩ := ih q h
      exact ⟨b', List.mem_cons_of_mem b hb', h'⟩
    · simp only [scanBoxes, hb] at h
      cases h
      exact ⟨b, List.mem_cons_self b bs, hb⟩

/-! ## Claim theorems -/

/-- C1: for a question registered at box index `i` (0 ≤ i < 5),
`move_question` relocates it to box 0 on an incorrect answer, to box 2 from
box 0 on a correct answer (never box 1), and to `min (i+1) 4` from any other
box on a correct answer; afterwards the location index holds exactly the new
box index and the question is a member of the new box. -/
theorem moveQuestion_routes (m : BoxManager) (q i : Nat) (correct : Bool)
    (hloc : getLoc m.questionLocation q = some i) (h5 : m.boxes.length = 5)
    (hi : i < 5) :
    ∃ m', m.move_question q correct = some m' ∧
      getLoc m'.questionLocation q =
        some (if correct then (if i = 0 then 2 else min (i + 1) 4) else 0) ∧
      q ∈ boxQ m' (if correct then (if i = 0 then 2 else min (i + 1) 4) else 0) := by
  have hrun := move_eq_relocate m q correct hloc
  rw [h5] at hrun
  norm_num at hrun
  have hn5 : (if correct then (if i = 0 then 2 else min (i + 1) 4) else 0) < 5 := by
    rcases correct with _ | _
    · simp
    · by_cases h0 : i = 0
      · simp [h0]
      · simp only [h0, if_false, if_true]
        omega
  refine ⟨_, hrun, ?_, ?_⟩
  · rw [getLoc_relocate, if_pos rfl]
  · rw [boxQ_relocate m q i _ h5 hi hn5, if_pos rfl]
    exact self_mem_add_question _ _

/-- C1 witness: a freshly added question sits in box 1; answering it
correctly moves it to box 2. -/
theorem moveQuestion_routes_witness :
    ∃ m', (BoxManager.new.add_new_question 7).move_question 7 true = some m' ∧
      getLoc m'.questionLocation 7 =
        some (if true then (if 1 = 0 then 2 else min (1 + 1) 4) else 0) ∧
      7 ∈ boxQ m' (if true then (if 1 = 0 then 2 else min (1 + 1) 4) else 0) :=
  moveQuestion_routes (BoxManager.new.add_new_question 7) 7 1 true (by decide)
    (by decide) (by decide)

/-- C2: `get_next_question` is the first non-`none`
`get_next_priority_question` over boxes 0, 1, 2, 3 in that order; box 4 is
never inspected, so any returned question is a member of one of boxes 0–3;
in particular an eligible box-0 question wins over everything else. -/
theorem getNextQuestion_scan_order (m : BoxManager) (la : Nat → Int) (now : Int)
    (h5 : m.boxes.length = 5) :
    m.get_next_question la now =
      ((m.boxes.getD 0 dBox).get_next_priority_question la now <|>
       ((m.boxes.getD 1 dBox).get_next_priority_question la now <|>
        ((m.boxes.getD 2 dBox).get_next_priority_question la now <|>
         (m.boxes.getD 3 dBox).get_next_priority_question la now))) ∧
    (∀ q, m.get_next_question la now = some q → ∃ i, i < 4 ∧ q ∈ boxQ m i) ∧
    (∀ q0, (m.boxes.getD 0 dBox).get_next_priority_question la now = some q0 →
      m.get_next_question la now = some q0) := by
  obtain ⟨b0, b1, b2, b3, b4, hb⟩ := list_eq_of_length_five m.boxes h5
  have hscan : m.get_next_question la now = scanBoxes la now [b0, b1, b2, b3] := by
    unfold BoxManager.get_next_question
    rw [hb]
    rfl
  have hchain : m.get_next_question la now =
      ((m.boxes.getD 0 dBox).get_next_priority_question la now <|>
       ((m.boxes.getD 1 dBox).get_next_priority_question la now <|>
        ((m.boxes.getD 2 dBox).get_next_priority_question la now <|>
         (m.boxes.getD 3 dBox).get_next_priority_question la now))) := by
    rw [hscan, hb]
    rw [scanBoxes_cons, scanBoxes_cons, scanBoxes_cons, scanBoxes_cons,
      scanBoxes_nil, opt_orElse_none]
    rfl
  refine ⟨hchain, ?_, ?_⟩
  · intro q hq
    rw [hscan] at hq
    obtain ⟨b, hbmem, hbq⟩ := scanBoxes_some la now _ q hq
    have hmem := (gnpq_some b la now hbq).1
    rcases hbmem with _ | ⟨_, (_ | ⟨_, (_ | ⟨_, (_ | ⟨_, h⟩)⟩)⟩)⟩
    · exact ⟨0, by omega, by rw [boxQ, hb]; exact hmem⟩
    · exact ⟨1, by omega, by rw [boxQ, hb]; exact hmem⟩
    · exact ⟨2, by omega, by rw [boxQ, hb]; exact hmem⟩
    · exact ⟨3, by omega, by rw [boxQ, hb]; exact hmem⟩
    · cases h
  · intro q0 h0
    rw [hchain, h0]
    rfl

/-- C2 witness: with a single fresh question in box 1, the scan returns it,
and all three conjuncts apply to the concrete state. -/
theorem getNextQuestion_scan_order_witness :
    (BoxManager.new.add_new_question 3).get_next_question (fun _ => dtMin) 50 =
      (((BoxManager.new.add_new_question 3).boxes.getD 0 dBox).get_next_priority_question
          (fun _ => dtMin) 50 <|>
       ((((BoxManager.new.add_new_question 3).boxes.getD 1 dBox)).get_next_priority_question
          (fun _ => dtMin) 50 <|>
        ((((BoxManager.new.add_new_question 3).boxes.getD 2 dBox)).get_next_priority_question
          (fun _ => dtMin) 50 <|>
         (((BoxManager.new.add_new_question 3).boxes.getD 3 dBox)).get_next_priority_question
          (fun _ => dtMin) 50))) :=
  (getNextQuestion_scan_order (BoxManager.new.add_new_question 3)
    (fun _ => dtMin) 50 (by decide)).1

/-- C3: `get_next_priority_question` returns a member only when its elapsed
time since last-asked reaches the box's priority interval, always one whose
`last_asked` is minimal among all members (never-asked is the minimal
sentinel `dtMin`); when no member reaches the threshold it returns `none`. -/
theorem nextPriorityQuestion_spec (b : Box) (la : Nat → Int) (now : Int) :
    (∀ q, b.get_next_priority_question la now = some q →
      q ∈ b.questions ∧ b.priority_interval ≤ now - la q ∧
        ∀ r ∈ b.questions, la q ≤ la r) ∧
    ((∀ r ∈ b.questions, ¬ b.priority_interval ≤ now - la r) →
      b.get_next_priority_question la now = none) :=
  ⟨fun _ h => gnpq_some b la now h, fun h => (gnpq_none_iff b la now).2 h⟩

/-- C3 witness: a box whose single member was asked too recently yields
`none`. -/
theorem nextPriorityQuestion_spec_witness :
    Box.get_next_priority_question ⟨"Missed Questions", 60, [5]⟩
      (fun _ => (0 : Int)) 10 = none :=
  (nextPriorityQuestion_spec ⟨"Missed Questions", 60, [5]⟩
    (fun _ => (0 : Int)) 10).2 (by decide)

/-- C4: `add_new_question` puts the question in box 1 and records location 1;
with box 1's zero interval and the fresh question's `datetime.min` sentinel,
the question is immediately eligible, so box 1's
`get_next_priority_question` cannot return `none`. -/
theorem addNewQuestion_spec (m : BoxManager) (q : Nat) (la : Nat → Int) (now : Int)
    (h5 : m.boxes.length = 5)
    (hiv : (m.boxes.getD 1 dBox).priority_interval = 0)
    (hla : la q = dtMin) (hnow : dtMin ≤ now) :
    q ∈ boxQ (m.add_new_question q) 1 ∧
    getLoc (m.add_new_question q).questionLocation q = some 1 ∧
    ((m.add_new_question q).boxes.getD 1 dBox).priority_interval ≤ now - la q ∧
    ((m.add_new_question q).boxes.getD 1 dBox).get_next_priority_question la now
      ≠ none := by
  have hd : dtMin = 0 := rfl
  have hb : (m.add_new_question q).boxes.getD 1 dBox =
      (m.boxes.getD 1 dBox).add_question q := by
    unfold BoxManager.add_new_question
    exact getD_set_self _ _ _ _ (by omega)
  refine ⟨?_, ?_, ?_, ?_⟩
  · rw [boxQ_add_new m q h5 1, if_pos rfl]
    exact self_mem_add_question _ _
  · rw [getLoc_add_new, if_pos rfl]
  · rw [hb, interval_add_question, hiv, hla]
    omega
  · rw [hb]
    intro hnone
    have helig := (gnpq_none_iff _ la now).1 hnone q (self_mem_add_question _ _)
    rw [interval_add_question, hiv, hla] at helig
    omega

/-- C4 witness: adding question 3 to a fresh manager. -/
theorem addNewQuestion_spec_witness :
    3 ∈ boxQ (BoxManager.new.add_new_question 3) 1 ∧
    getLoc (BoxManager.new.add_new_question 3).questionLocation 3 = some 1 ∧
    ((BoxManager.new.add_new_question 3).boxes.getD 1 dBox).priority_interval ≤
      100 - (fun _ => dtMin) 3 ∧
    ((BoxManager.new.add_new_question 3).boxes.getD 1 dBox).get_next_priority_question
      (fun _ => dtMin) 100 ≠ none :=
  addNewQuestion_spec BoxManager.new 3 (fun _ => dtMin) 100 rfl rfl rfl (by decide)

/-- C5: over any sequence of public calls from a fresh manager in which each
question is registered exactly once before it is moved, every run succeeds
and afterwards every registered question is a member of exactly the box its
location entry names. -/
theorem locationIndex_consistent (ops : List AROp) (h : GoodTrace [] ops) :
    ∃ m', runOps BoxManager.new ops = some m' ∧
      ∀ q i, getLoc m'.questionLocation q = some i →
        i < 5 ∧ ∀ j, j < 5 → (q ∈ boxQ m' j ↔ j = i) := by
  obtain ⟨m', hrun, hInv⟩ := runOps_preserves_inv ops [] BoxManager.new h
    managerInv_new (by intro x; simp [getLoc, BoxManager.new])
  exact ⟨m', hrun, hInv.2.1⟩

/-- C5 witness: a concrete well-formed session of two questions and three
answers. -/
theorem locationIndex_consistent_witness :
    ∃ m', runOps BoxManager.new
        [AROp.addNew 1, AROp.addNew 2, AROp.move 1 true, AROp.move 2 false,
         AROp.move 1 true] = some m' ∧
      ∀ q i, getLoc m'.questionLocation q = some i →
        i < 5 ∧ ∀ j, j < 5 → (q ∈ boxQ m' j ↔ j = i) :=
  locationIndex_consistent _
    (GoodTrace.add _ _ _ (by simp)
      (GoodTrace.add _ _ _ (by simp)
        (GoodTrace.move _ _ _ _ (by simp)
          (GoodTrace.move _ _ _ _ (by simp)
            (GoodTrace.move _ _ _ _ (by simp) (GoodTrace.nil _))))))

/-- C6: `TrueFalse.check_answer` trims and lower-cases the input; "true"/"t"
yield whether the canonical answer is `true`, "false"/"f" whether it is
`false`, and any other input raises the `ValueError` (never a `false`
score). -/
theorem trueFalse_checkAnswer_spec (canonical : Bool) (s : String) :
    (pyLower (pyStrip s) = "true" →
      TrueFalse.check_answer canonical s = Except.ok canonical) ∧
    (pyLower (pyStrip s) = "t" →
      TrueFalse.check_answer canonical s = Except.ok canonical) ∧
    (pyLower (pyStrip s) = "false" →
      TrueFalse.check_answer canonical s = Except.ok (!canonical)) ∧
    (pyLower (pyStrip s) = "f" →
      TrueFalse.check_answer canonical s = Except.ok (!canonical)) ∧
    (pyLower (pyStrip s) ≠ "true" → pyLower (pyStrip s) ≠ "t" →
     pyLower (pyStrip s) ≠ "false" → pyLower (pyStrip s) ≠ "f" →
      TrueFalse.check_answer canonical s =
        Except.error "Answer must be 'True' or 'False'.") := by
  refine ⟨?_, ?_, ?_, ?_, ?_⟩
  · intro h
    simp [TrueFalse.check_answer, h]
  · intro h
    simp [TrueFalse.check_answer, h]
  · intro h
    simp [TrueFalse.check_answer, h]
  · intro h
    simp [TrueFalse.check_answer, h]
  · intro h1 h2 h3 h4
    simp [TrueFalse.check_answer, h1, h2, h3, h4]

/-- C6 witness: " T " is scored against the canonical answer, "yes" raises
the error. -/
theorem trueFalse_checkAnswer_spec_witness :
    TrueFalse.check_answer true " T " = Except.ok true ∧
    TrueFalse.check_answer true "yes" =
      Except.error "Answer must be 'True' or 'False'." :=
  ⟨(trueFalse_checkAnswer_spec true " T ").2.1 (by decide),
   (trueFalse_checkAnswer_spec true "yes").2.2.2.2 (by decide) (by decide)
     (by decide) (by decide)⟩

/-- C8: `ShortAnswer.check_answer` is exact equality of the two
normalizations, and "  The Answer!  " and "the answer" normalize equal in
case-insensitive mode. -/
theorem shortAnswer_normalize_spec :
    (∀ cs a b, ShortAnswer.check_answer cs a b = true ↔
      ShortAnswer.normalize cs b = ShortAnswer.normalize cs a) ∧
    ShortAnswer.normalize false "  The Answer!  " =
      ShortAnswer.normalize false "the answer" ∧
    ShortAnswer.check_answer false "the answer" "  The Answer!  " = true := by
  refine ⟨?_, ?_, ?_⟩
  · intro cs a b
    unfold ShortAnswer.check_answer
    exact beq_iff_eq
  · rfl
  · rfl

/-- C9: `__eq__` of both question classes requires the same class and equal
ids; under uuid uniqueness (equal id implies same object) equality holds
exactly on equal ids, cross-class objects and distinct-id objects are never
equal, and the hash depends only on the id. -/
theorem questionEq_spec (p q : QuestionObj) (huniq : p.id = q.id → p = q) :
    (questionEq p q = true ↔ p.id = q.id) ∧
    (p.variant ≠ q.variant → questionEq p q = false) ∧
    (p.id ≠ q.id → questionEq p q = false) ∧
    (p.id = q.id → questionHash p = questionHash q) := by
  refine ⟨⟨?_, ?_⟩, ?_, ?_, ?_⟩
  · intro h
    rcases hv : p.variant with _ | _ <;>
      · unfold questionEq at h
        rw [hv] at h
        simp at h
        exact h.2
  · intro h
    rcases huniq h
    rcases hv : p.variant with _ | _ <;> simp [questionEq, hv]
  · intro hv
    rcases hp : p.variant with _ | _ <;> rcases hq : q.variant with _ | _ <;>
      simp_all [questionEq]
  · intro h
    rcases hp : p.variant with _ | _ <;> simp_all [questionEq]
  · intro h
    unfold questionHash
    rw [h]

/-- C9 witness: an object compares equal to itself. -/
theorem questionEq_spec_witness :
    questionEq ⟨1, QVariant.shortanswer, "p", "a"⟩
      ⟨1, QVariant.shortanswer, "p", "a"⟩ = true :=
  (questionEq_spec ⟨1, QVariant.shortanswer, "p", "a"⟩
    ⟨1, QVariant.shortanswer, "p", "a"⟩ (fun _ => rfl)).1.2 rfl

/-- C10: when the response lower-cases to the quit sentinel "q", the loop
iteration ends in the `quit` outcome with the manager (boxes and location
index) unchanged; only the asked question's last-asked timestamp has been
updated to `now` by `ask`, all others untouched. -/
theorem quitSentinel_frame (m : BoxManager) (la : Nat → Int) (now : Int)
    (response : String) (check : Nat → String → Except String Bool) (q : Nat)
    (hq : m.get_next_question la now = some q) (hr : pyLower response = "q") :
    arStep m la now response check =
      StepOutcome.quit m (fun x => if x = q then now else la x) ∧
    (fun x => if x = q then now else la x) q = now ∧
    (∀ x, x ≠ q → (fun x => if x = q then now else la x) x = la x) := by
  refine ⟨?_, by simp, ?_⟩
  · simp only [arStep, hq, hr, if_true, reduceIte]
  · intro x hx
    simp [hx]

/-- C10 witness: quitting with "Q" on a one-question session. -/
theorem quitSentinel_frame_witness :
    arStep (BoxManager.new.add_new_question 3) (fun _ => dtMin) 50 "Q"
        (fun _ _ => Except.error "") =
      StepOutcome.quit (BoxManager.new.add_new_question 3)
        (fun x => if x = 3 then 50 else (fun _ => dtMin) x) ∧
    (fun x => if x = 3 then (50 : Int) else (fun _ => dtMin) x) 3 = 50 ∧
    (∀ x, x ≠ 3 →
      (fun x => if x = 3 then (50 : Int) else (fun _ => dtMin) x) x =
        (fun _ => dtMin) x) :=
  quitSentinel_frame (BoxManager.new.add_new_question 3) (fun _ => dtMin) 50
    "Q" (fun _ _ => Except.error "") 3 (by decide) (by decide)

/-! ## Record-loading lemmas -/

theorem skippable_skipped (r : QRecord) (h : malformedSkippable r = true) :
    processRecord r = RecResult.skipped := by
  rcases r with ⟨t, qn, ca, cs, ex⟩
  rcases t with _ | ts
  · rfl
  · by_cases h1 : ts = "shortanswer"
    · subst h1
      rcases qn with _ | qt
      · rfl
      · rcases ca with _ | cav
        · rfl
        · simp [malformedSkippable] at h
    · by_cases h2 : ts = "truefalse"
      · subst h2
        rcases qn with _ | qt
        · rfl
        · rcases ca with _ | cav
          · rfl
          · simp [malformedSkippable] at h
      · unfold processRecord
        split
        · rename_i heq
          injection heq with heq'
          exact absurd heq' h1
        · rename_i heq
          injection heq with heq'
          exact absurd heq' h2
        · rfl

theorem wellFormed_added (r : QRecord) (h : wellFormedRec r = true) :
    ∃ q, processRecord r = RecResult.added q := by
  rcases r with ⟨t, qn, ca, cs, ex⟩
  rcases t with _ | ts
  · simp [wellFormedRec] at h
  · by_cases h1 : ts = "shortanswer"
    · subst h1
      rcases qn with _ | qt
      · simp [wellFormedRec] at h
      · rcases ca with _ | cav
        · simp [wellFormedRec] at h
        · exact ⟨_, rfl⟩
    · by_cases h2 : ts = "truefalse"
      · subst h2
        rcases qn with _ | qt
        · simp [wellFormedRec] at h
        · rcases ca with _ | cav
          · simp [wellFormedRec] at h
          · rcases cav with cs' | cb | cn
            · simp [wellFormedRec] at h
            · exact ⟨_, rfl⟩
            · simp [wellFormedRec] at h
      · exfalso
        apply h1
        simp [wellFormedRec, h2] at h
        exact h.1.1

/-- C7: in a batch whose records are each either well formed or malformed
by an unrecognised type / missing required field, the load never aborts:
every skippable record is skipped (processing continues) and every well
formed record's question is constructed and added, in order. -/
theorem initializeQuestions_spec (rs : List QRecord)
    (h : ∀ r ∈ rs, wellFormedRec r = true ∨ malformedSkippable r = true) :
    ∃ qs, initializeQuestions rs = Except.ok qs ∧
      qs = rs.filterMap addedQ ∧
      (∀ r ∈ rs, wellFormedRec r = true → ∃ q, addedQ r = some q ∧ q ∈ qs) ∧
      (∀ r, malformedSkippable r = true → processRecord r = RecResult.skipped) := by
  induction rs with
  | nil =>
    exact ⟨[], rfl, rfl, by simp, fun r hr => skippable_skipped r hr⟩
  | cons r rest ih =>
    have hr := h r (List.mem_cons_self r rest)
    obtain ⟨qs, hqs, hfm, hwf, _⟩ := ih (fun r' hr' => h r' (List.mem_cons_of_mem r hr'))
    rcases hr with hw | hsk
    · obtain ⟨q, hq⟩ := wellFormed_added r hw
      refine ⟨q :: qs, ?_, ?_, ?_, fun r hr => skippable_skipped r hr⟩
      · simp [initializeQuestions, hq, hqs, Except.map]
      · simp [List.filterMap_cons, addedQ, hq, hfm]
      · intro r' hr' hw'
        rcases List.mem_cons.1 hr' with rfl | hr'
        · exact ⟨q, by simp [addedQ, hq], by simp⟩
        · obtain ⟨q', hq', hmem⟩ := hwf r' hr' hw'
          exact ⟨q', hq', by simp [hmem]⟩
    · have hskip := skippable_skipped r hsk
      refine ⟨qs, ?_, ?_, ?_, fun r hr => skippable_skipped r hr⟩
      · simp [initializeQuestions, hskip, hqs]
      · simp [List.filterMap_cons, addedQ, hskip, hfm]
      · intro r' hr' hw'
        rcases List.mem_cons.1 hr' with rfl | hr'
        · obtain ⟨q, hq⟩ := wellFormed_added r' hw'
          simp [hskip] at hq
        · exact hwf r' hr' hw'

/-- C7 witness: a batch with a good shortanswer, an unsupported type, a
truefalse missing its prompt, and a good truefalse loads without aborting
and yields the two well-formed questions. -/
theorem initializeQuestions_spec_witness :
    ∃ qs, initializeQuestions
        [⟨some "shortanswer", some "2+2?", some (JVal.str "4"), none, none⟩,
         ⟨some "multiplechoice", some "pick one", some (JVal.str "a"), none, none⟩,
         ⟨some "truefalse", none, some (JVal.bool true), none, none⟩,
         ⟨some "truefalse", some "Sky is blue", some (JVal.bool true), none,
           some "It is."⟩] = Except.ok qs ∧
      qs = List.filterMap addedQ
        [⟨some "shortanswer", some "2+2?", some (JVal.str "4"), none, none⟩,
         ⟨some "multiplechoice", some "pick one", some (JVal.str "a"), none, none⟩,
         ⟨some "truefalse", none, some (JVal.bool true), none, none⟩,
         ⟨some "truefalse", some "Sky is blue", some (JVal.bool true), none,
           some "It is."⟩] ∧
      (∀ r ∈ [⟨some "shortanswer", some "2+2?", some (JVal.str "4"), none, none⟩,
         ⟨some "multiplechoice", some "pick one", some (JVal.str "a"), none, none⟩,
         ⟨some "truefalse", none, some (JVal.bool true), none, none⟩,
         (⟨some "truefalse", some "Sky is blue", some (JVal.bool true), none,
           some "It is."⟩ : QRecord)], wellFormedRec r = true →
        ∃ q, addedQ r = some q ∧ q ∈ qs) ∧
      (∀ r, malformedSkippable r = true → processRecord r = RecResult.skipped) :=
  initializeQuestions_spec _ (by decide)

/-- C7 counterexample: a `truefalse` record with both required fields but a
non-boolean answer raises `ValueError` inside `TrueFalse.__init__`, which
`_initialize_questions` does not catch (it catches only `KeyError`), so the
whole load aborts and the following well-formed record is never added. -/
theorem initializeQuestions_abort_counterexample :
    initializeQuestions
        [⟨some "truefalse", some "Is water wet?", some (JVal.str "yes"), none, none⟩,
         ⟨some "shortanswer", some "2+2?", some (JVal.str "4"), none, none⟩] =
      Except.error () ∧
    wellFormedRec
      ⟨some "shortanswer", some "2+2?", some (JVal.str "4"), none, none⟩ = true ∧
    malformedSkippable
      ⟨some "truefalse", some "Is water wet?", some (JVal.str "yes"), none, none⟩ =
      false := by
  refine ⟨rfl, rfl, rfl⟩
